import Mathlib

/-!
Verification of the edewakaru verb-pair scraper and Anki sync scripts
(src/scraper.py and src/anki_sync.py).

Strings are modelled as `List Char` (Python strings are sequences of code
points, so `List.length` matches Python `len`).  Pure text-processing
functions are translated directly from the Python source; I/O collaborators
(HTTP fetch, the file system, the MD5 digest from `hashlib`, and the
AnkiConnect endpoint) are passed in as explicit oracles/state.
-/

namespace VerbPairs

/-- Characters removed by Python `str.strip()` (the whitespace characters
that can actually occur in the inputs of this scraper: ASCII whitespace plus the
ideographic space U+3000). -/
def isPySpace (ch : Char) : Bool :=
  ch = ' ' || ch = '\t' || ch = '\n' || ch = '\r' ||
  ch = '\x0b' || ch = '\x0c' || ch = '　'

/-- Python `s.strip()`: drop leading and trailing whitespace. -/
def pyStrip (l : List Char) : List Char :=
  ((l.dropWhile isPySpace).reverse.dropWhile isPySpace).reverse

/-- Python `s.split(sep)` for a one-character separator `c`
(`"".split(c) == [""]`, separators at the ends produce empty parts). -/
def pySplit (c : Char) : List Char → List (List Char)
  | [] => [[]]
  | x :: xs =>
    if x = c then [] :: pySplit c xs
    else
      match pySplit c xs with
      | [] => [[x]]
      | p :: ps => (x :: p) :: ps

/-- Python `needle in hay` (substring containment; `"" in s` is `True`). -/
def isSubstring (needle : List Char) : List Char → Bool
  | [] => decide (needle = [])
  | x :: xs => needle.isPrefixOf (x :: xs) || isSubstring needle xs

/-- Python `re.split(r"[｜|]", title)[0]`: the prefix of the title before the first
(full-width or ASCII) vertical bar. -/
def beforeBar (l : List Char) : List Char :=
  l.takeWhile (fun ch => ch != '｜' && ch != '|')

/-- The prioritized separator list `["・", "／", "/"]` from
`parse_verb_pair_title`. -/
def titleSeps : List Char := ['・', '／', '/']

/-- The separator loop of `parse_verb_pair_title`: for each separator in
order, if it occurs in the cleaned title and splitting on it yields exactly
two parts, return the two stripped parts; otherwise try the next one. -/
def trySeps (t : List Char) : List Char → Option (List Char × List Char)
  | [] => none
  | sep :: rest =>
    if sep ∈ t then
      match pySplit sep t with
      | [a, b] => some (pyStrip a, pyStrip b)
      | _ => trySeps t rest
    else trySeps t rest

/-- The function `parse_verb_pair_title` from src/scraper.py: strip the `｜category`
suffix, then split on the first separator among ・, ／, / that yields
exactly two parts. -/
def parse_verb_pair_title (title : List Char) : Option (List Char × List Char) :=
  trySeps (pyStrip (beforeBar title)) titleSeps

/-- The record id from `parse_article`:
`f"{intransitive}_{transitive}".replace(" ", "")` — the two kanji forms
joined by an underscore, with every ASCII space removed. -/
def verbId (intr tr : List Char) : List Char :=
  (intr ++ '_' :: tr).filter (fun ch => ch != ' ')

/-- The particle が as a one-character needle. -/
def gaStr : List Char := "が".data

/-- The particle を as a one-character needle. -/
def woStr : List Char := "を".data

/-- The strong-confidence marker 自動詞 (intransitive verb). -/
def jidoushiStr : List Char := "自動詞".data

/-- The strong-confidence marker 他動詞 (transitive verb). -/
def tadoushiStr : List Char := "他動詞".data

/-- The length threshold `len(line) < 100` for weak-confidence example
lines in `parse_article`. -/
def exampleLenBound : Nat := 100

/-- A (stripped) line qualifies as an intransitive example: it contains
が and the intransitive kanji, and either the 自動詞 marker or is short. -/
def isIntransExample (intr line : List Char) : Bool :=
  isSubstring gaStr line && isSubstring intr line &&
    (isSubstring jidoushiStr line || decide (line.length < exampleLenBound))

/-- A (stripped) line qualifies as a transitive example: it contains
を and the transitive kanji, and either the 他動詞 marker or is short. -/
def isTransExample (tr line : List Char) : Bool :=
  isSubstring woStr line && isSubstring tr line &&
    (isSubstring tadoushiStr line || decide (line.length < exampleLenBound))

/-- The example-mining loop of `parse_article` (lines 217-233): strip each
line, skip empty lines, and append to the intransitive/transitive example
lists according to the if/elif particle tests. -/
def collect_examples (intr tr : List Char) :
    List (List Char) → List (List Char) × List (List Char)
  | [] => ([], [])
  | l :: ls =>
    let line := pyStrip l
    let rest := collect_examples intr tr ls
    if line = [] then rest
    else
      let ri :=
        if isSubstring gaStr line && isSubstring intr line &&
            isSubstring jidoushiStr line then line :: rest.1
        else if isSubstring gaStr line && isSubstring intr line &&
            decide (line.length < exampleLenBound) then line :: rest.1
        else rest.1
      let rt :=
        if isSubstring woStr line && isSubstring tr line &&
            isSubstring tadoushiStr line then line :: rest.2
        else if isSubstring woStr line && isSubstring tr line &&
            decide (line.length < exampleLenBound) then line :: rest.2
        else rest.2
      (ri, rt)

/-- The circled ordinal glyphs `"①②③④⑤⑥⑦⑧⑨⑩⑪⑫⑬⑭⑮"` that
`parse_article` iterates over. -/
def circledNumbers : List Char := "①②③④⑤⑥⑦⑧⑨⑩⑪⑫⑬⑭⑮".data

/-- The glyphs excluded by the regex character class
`[^\n①②③④⑤⑥⑦⑧⑨⑩]` — only the first ten circled numbers. -/
def firstTenGlyphs : List Char := "①②③④⑤⑥⑦⑧⑨⑩".data

/-- A character that terminates a glyph run: a newline or one of ①…⑩
(the characters negated in the regex classes of lines 239 and 253). -/
def stopRun (ch : Char) : Bool := ch = '\n' || decide (ch ∈ firstTenGlyphs)

/-- Python `re.findall(rf"{c}[^\n①②③④⑤⑥⑦⑧⑨⑩]+", text)` as a left-to-right
scan: `acc = some run` means a match starting with glyph `c` is in
progress with `run` collected so far.  Matches are leftmost, greedy and
non-overlapping; a glyph followed immediately by a terminator is not a
match (the `+` needs at least one character). -/
def runsGo (c : Char) : Option (List Char) → List Char → List (List Char)
  | some run, [] => if run = [] then [] else [c :: run]
  | none, [] => []
  | some run, x :: xs =>
    if stopRun x then
      (if run = [] then [] else [c :: run]) ++
        (if x = c then runsGo c (some []) xs else runsGo c none xs)
    else runsGo c (some (run ++ [x])) xs
  | none, x :: xs =>
    if x = c then runsGo c (some []) xs else runsGo c none xs

/-- All matches of `rf"{c}[^\n①②③④⑤⑥⑦⑧⑨⑩]+"` in `text`, in order. -/
def findRuns (c : Char) (text : List Char) : List (List Char) :=
  runsGo c none text

/-- Bracket repair from `parse_article` line 242-243: if a match contains
【 but no 】, append 】. -/
def fixBrackets (m : List Char) : List Char :=
  if '【' ∈ m ∧ '】' ∉ m then m ++ ['】'] else m

/-- Lines 241-245 of `parse_article`: repair brackets, keep only matches
longer than 5 characters, and strip the kept match. -/
def keepQuestion (m : List Char) : Option (List Char) :=
  let m2 := fixBrackets m
  if m2.length > 5 then some (pyStrip m2) else none

/-- The practice-question loop (lines 236-245): for each circled glyph in
glyph order, all regex matches in text order, filtered and repaired. -/
def practiceAll (text : List Char) : List (List Char) :=
  (circledNumbers.map (fun c => (findRuns c text).filterMap keepQuestion)).flatten

/-- The practice questions actually stored in the record:
`practice_questions[:10]`. -/
def practiceQuestionsOf (text : List Char) : List (List Char) :=
  (practiceAll text).take 10

/-- The marker `"【答え】"` introducing the answer block. -/
def answerMarker : List Char := "【答え】".data

/-- The lookahead `(?=【|$)` of the answer-block regex: succeeds when the
rest of the text starts with 【, is empty, or is a single final newline
(Python `$` also matches just before a trailing newline). -/
def lookOk : List Char → Bool
  | [] => true
  | ['\n'] => true
  | ch :: _ => ch = '【'

/-- The lazy group `(.+?)` of `re.search(r"【答え】(.+?)(?=【|$)", text,
re.DOTALL)`: having consumed `acc` (at least one character), extend one
character at a time until the lookahead succeeds. -/
def grabLazy (acc : List Char) : List Char → List Char
  | [] => acc
  | r :: rs => if lookOk (r :: rs) then acc else grabLazy (acc ++ [r]) rs

/-- Python `re.search(r"【答え】(.+?)(?=【|$)", text, re.DOTALL)`: the first
occurrence of 【答え】 that is followed by at least one character yields
the (lazy) block after it. -/
def findAnswerBlock : List Char → Option (List Char)
  | [] => none
  | x :: xs =>
    if answerMarker.isPrefixOf (x :: xs) then
      match (x :: xs).drop answerMarker.length with
      | [] => findAnswerBlock xs
      | d :: ds => some (grabLazy [d] ds)
    else findAnswerBlock xs

/-- Python `re.search(rf"{c}([^①②③④⑤⑥⑦⑧⑨⑩\n]+)", block)`: the group of the
first match — the maximal nonempty terminator-free run after the first
occurrence of `c` that has such a run. -/
def firstRun (c : Char) : List Char → Option (List Char)
  | [] => none
  | x :: xs =>
    if x = c then
      let run := xs.takeWhile (fun y => !stopRun y)
      if run = [] then firstRun c xs else some run
    else firstRun c xs

/-- The answer-mining loop (lines 247-256): locate the answer block, then
for each circled glyph in glyph order take the (stripped) group of the
first match inside the block. -/
def answersOf (text : List Char) : List (List Char) :=
  match findAnswerBlock text with
  | none => []
  | some block => circledNumbers.filterMap (fun c => (firstRun c block).map pyStrip)

/-- One entry of the `images` list of a record. -/
structure ImageEntry where
  filename : List Char
  original_url : List Char
  alt : List Char
deriving DecidableEq

/-- One verb side of the record (`intransitive` / `transitive`). -/
structure VerbSide where
  kanji : List Char
  reading : Option (List Char)
  examples : List (List Char)
deriving DecidableEq

/-- The JSON record built at the end of `parse_article`. -/
structure Record where
  id : List Char
  title : List Char
  level : List Char
  intransitive : VerbSide
  transitive : VerbSide
  practice_questions : List (List Char)
  answers : List (List Char)
  images : List ImageEntry
  source_url : List Char
  attribution : List Char
deriving DecidableEq

/-- The fixed attribution string of `parse_article`. -/
def attributionStr : List Char :=
  "Source: edewakaru.com (絵でわかる日本語)".data

/-- The pure core of `parse_article` (src/scraper.py lines 171-295), given
the fetched title and body text.  The readings (`extract_readings` runs on
the raw page soup) and the downloaded image entries (produced by the
`download_image` collaborator) are passed in, since they come from I/O;
everything else is computed exactly as in the source.  Returns `none` when
the title does not parse into a verb pair. -/
def parse_article (url level title bodyText : List Char)
    (readingI readingT : Option (List Char)) (images : List ImageEntry) :
    Option Record :=
  match parse_verb_pair_title title with
  | none => none
  | some (intr, tr) =>
    let ex := collect_examples intr tr (pySplit '\n' bodyText)
    some
      { id := verbId intr tr
        title := title
        level := level
        intransitive := { kanji := intr, reading := readingI, examples := ex.1.take 3 }
        transitive := { kanji := tr, reading := readingT, examples := ex.2.take 3 }
        practice_questions := practiceQuestionsOf bodyText
        answers := answersOf bodyText
        images := images
        source_url := url
        attribution := attributionStr }

/-- A fetched article page: the inputs `parse_article` extracts from one
HTML of one URL. -/
structure ArticlePage where
  url : List Char
  title : List Char
  body : List Char
  readingI : Option (List Char)
  readingT : Option (List Char)
  images : List ImageEntry
deriving DecidableEq

/-- The function `scrape_level` (lines 298-316): each article whose fetch succeeded
(`some page`) is parsed; every parsed record is saved to the data
directory (the returned list is exactly the set of persisted records, in
order).  A failed fetch (`none`) or an unparseable article is skipped. -/
def scrape_level (level : List Char) (fetched : List (Option ArticlePage)) :
    List Record :=
  fetched.filterMap fun o =>
    o.bind fun p =>
      parse_article p.url level p.title p.body p.readingI p.readingT p.images

/-- Truncation up to the first `#`: `urlparse` removes the fragment
first. -/
def cutFragment (u : List Char) : List Char :=
  u.takeWhile (fun ch => ch != '#')

/-- First character of a URL scheme: an ASCII letter. -/
def isSchemeStart (ch : Char) : Bool :=
  ('a' ≤ ch && ch ≤ 'z') || ('A' ≤ ch && ch ≤ 'Z')

/-- Subsequent characters of a URL scheme. -/
def isSchemeChar (ch : Char) : Bool :=
  isSchemeStart ch || ('0' ≤ ch && ch ≤ '9') || ch = '+' || ch = '-' || ch = '.'

/-- Strip a leading `scheme:` as `urllib.parse.urlparse` does. -/
def dropScheme (u : List Char) : List Char :=
  let pre := u.takeWhile (fun ch => ch != ':')
  if pre.length < u.length && !pre.isEmpty &&
      isSchemeStart (pre.headI) && pre.all isSchemeChar then
    u.drop (pre.length + 1)
  else u

/-- Strip a leading `//netloc` as `urlparse` does: after `//`, the netloc
runs until the next `/`, `?` or `#`. -/
def dropNetloc : List Char → List Char
  | '/' :: '/' :: rest =>
    rest.dropWhile (fun ch => ch != '/' && ch != '?' && ch != '#')
  | u => u

/-- Python `urllib.parse.urlparse(img_url).path`. -/
def urlPath (u : List Char) : List Char :=
  ((dropNetloc (dropScheme (cutFragment u)))).takeWhile (fun ch => ch != '?')

/-- The final component (`pathlib.PurePath.name`) of a path: empty and `.`
components are dropped, trailing slashes are ignored. -/
def pathName (p : List Char) : List Char :=
  ((pySplit '/' p).filter (fun comp => comp ≠ [] ∧ comp ≠ ['.'])).getLastD []

/-- Python `pathlib.PurePath(path).suffix`: the extension of the final component,
i.e. the part from the last dot, provided that dot is neither the first
nor the last character of the name. -/
def pathSuffix (p : List Char) : List Char :=
  let name := pathName p
  if '.' ∈ name then
    let after := (name.reverse.takeWhile (fun ch => ch != '.')).reverse
    if !after.isEmpty && after.length + 1 < name.length then '.' :: after else []
  else []

/-- The local filename computed by `download_image`:
`f"{verb_pair_id}_{url_hash}{ext}"` with
`url_hash = hashlib.md5(img_url.encode()).hexdigest()[:8]` and
`ext = Path(urlparse(img_url).path).suffix or ".jpg"`.  The MD5 hex digest
is an external library call, passed in as the oracle `md5hex`. -/
def imageFilename (md5hex : List Char → List Char)
    (img_url verb_pair_id : List Char) : List Char :=
  let urlHash := (md5hex img_url).take 8
  let ext := if pathSuffix (urlPath img_url) = [] then ".jpg".data
    else pathSuffix (urlPath img_url)
  verb_pair_id ++ '_' :: (urlHash ++ ext)

/-- The local image directory: an association list from filename to file
bytes. -/
structure ImageStore where
  files : List (List Char × List Nat)
deriving DecidableEq

/-- The filenames present in the store (`filepath.exists()`). -/
def ImageStore.names (st : ImageStore) : List (List Char) :=
  st.files.map (fun f => f.1)

/-- The function `download_image` (lines 112-134).  Here `fetch url = none` models a request
exception or non-2xx status (the `except` branch returns `None`);
`fetch url = some bytes` models a successful download, which is written to
the store.  If the computed filename already exists, the function returns
it without touching the network or the store. -/
def download_image (md5hex : List Char → List Char)
    (fetch : List Char → Option (List Nat)) (st : ImageStore)
    (img_url verb_pair_id : List Char) :
    Option (List Char) × ImageStore :=
  let filename := imageFilename md5hex img_url verb_pair_id
  if filename ∈ st.names then (some filename, st)
  else
    match fetch img_url with
    | none => (none, st)
    | some content => (some filename, ⟨st.files ++ [(filename, content)]⟩)

/-- The separator `"<br>"` as a character list. -/
def brStr : List Char := "<br>".data

/-- Python `"<br>".join(parts)`. -/
def joinBr (parts : List (List Char)) : List Char :=
  List.intercalate brStr parts

/-- The filter of `format_practice_questions`: `"［" in q or "【" in q`. -/
def hasChoiceBracket (q : List Char) : Bool := '［' ∈ q || '【' ∈ q

/-- The function `format_practice_questions` (src/anki_sync.py lines 310-317): prefer
questions containing ［ or 【; if none match, fall back to the first 5;
join at most 5 with `<br>`. -/
def format_practice_questions (questions : List (List Char)) : List Char :=
  let filtered := questions.filter hasChoiceBracket
  let filtered2 := if filtered = [] then questions.take 5 else filtered
  joinBr (filtered2.take 5)

/-- The function `format_answers` (lines 320-322): join the first 5 answers with
`<br>`. -/
def format_answers (answers : List (List Char)) : List Char :=
  joinBr (answers.take 5)

/-- The environment of the sync run.  `net n` tells whether the `n`-th
AnkiConnect HTTP request succeeds (`false` models `urllib.error.URLError`,
i.e. the store being unreachable at that moment); the remaining oracles
give the data-bearing responses that steer control flow. -/
structure AnkiEnv where
  net : Nat → Bool
  deckExists : Bool
  modelExists : Bool
  noteExists : List Char → Bool
  mediaExists : List Char → Bool

/-- One `anki_request` call: consumes the next call index; `none` means
the request raised (connection error), which no caller below catches. -/
def ankiStep (env : AnkiEnv) (n : Nat) : Option Nat :=
  if env.net n then some (n + 1) else none

/-- The function `add_or_update_note` (lines 325-382) at the connectivity level: a
`findNotes` request, then — when the record has images and the first image
file exists locally — a `storeMediaFile` request, then either
`updateNoteFields` or `addNote`.  Returns the next call index and whether
the note was new; `none` means an uncaught connection exception. -/
def add_or_update_note (env : AnkiEnv) (n : Nat) (r : Record) :
    Option (Nat × Bool) :=
  match ankiStep env n with
  | none => none
  | some n1 =>
    let afterImage :=
      match r.images with
      | [] => some n1
      | img :: _ => if env.mediaExists img.filename then ankiStep env n1 else some n1
    match afterImage with
    | none => none
    | some n2 =>
      match ankiStep env n2 with
      | none => none
      | some n3 => some (n3, !env.noteExists r.id)

/-- The outcome of a sync run. -/
inductive SyncOutcome where
  | abortedAtStartup : SyncOutcome
  | crashed (added updated : Nat) : SyncOutcome
  | completed (added updated : Nat) : SyncOutcome
deriving DecidableEq

/-- The per-record loop of `sync_all_verb_pairs` (lines 402-410): an
uncaught exception in `add_or_update_note` stops the whole run with the
counts accumulated so far; otherwise the counters advance and the loop
continues. -/
def syncLoop (env : AnkiEnv) (n added updated : Nat) :
    List Record → SyncOutcome
  | [] => SyncOutcome.completed added updated
  | r :: rs =>
    match add_or_update_note env n r with
    | none => SyncOutcome.crashed added updated
    | some (n2, isNew) =>
      if isNew then syncLoop env n2 (added + 1) updated rs
      else syncLoop env n2 added (updated + 1) rs

/-- The function `sync_all_verb_pairs` (lines 385-415): call 0 is the startup `version`
check, whose failure is caught (`check_anki_connection` prints a
diagnostic and the sync returns).  Then `deckNames` (plus `createDeck`
when missing) and `modelNames` (plus `createModel` when missing), whose
failures are uncaught, then the per-record loop. -/
def sync_all_verb_pairs (env : AnkiEnv) (recs : List Record) : SyncOutcome :=
  match ankiStep env 0 with
  | none => SyncOutcome.abortedAtStartup
  | some n1 =>
    match ankiStep env n1 with
    | none => SyncOutcome.crashed 0 0
    | some n2 =>
      match (if env.deckExists then some n2 else ankiStep env n2) with
      | none => SyncOutcome.crashed 0 0
      | some n3 =>
        match ankiStep env n3 with
        | none => SyncOutcome.crashed 0 0
        | some n4 =>
          match (if env.modelExists then some n4 else ankiStep env n4) with
          | none => SyncOutcome.crashed 0 0
          | some n5 => syncLoop env n5 0 0 recs

/-- A concrete parsed record used in closed witness statements: the pair
開く・開ける with no extracted extras. -/
def sampleRecord : Record :=
  { id := "開く_開ける".data
    title := "開く・開ける｜自動詞・他動詞".data
    level := "beginner".data
    intransitive := { kanji := "開く".data, reading := none, examples := [] }
    transitive := { kanji := "開ける".data, reading := none, examples := [] }
    practice_questions := []
    answers := []
    images := []
    source_url := "https://www.edewakaru.com/archives/1.html".data
    attribution := attributionStr }

/-- A second concrete record (閉まる・閉める). -/
def sampleRecord2 : Record :=
  { id := "閉まる_閉める".data
    title := "閉まる・閉める｜自動詞・他動詞".data
    level := "beginner".data
    intransitive := { kanji := "閉まる".data, reading := none, examples := [] }
    transitive := { kanji := "閉める".data, reading := none, examples := [] }
    practice_questions := []
    answers := []
    images := []
    source_url := "https://www.edewakaru.com/archives/2.html".data
    attribution := attributionStr }

/-- An environment whose store answers the three setup calls and then
becomes unreachable: the fourth call (the first `findNotes`) raises. -/
def midRunFailEnv : AnkiEnv :=
  { net := fun n => decide (n < 3)
    deckExists := true
    modelExists := true
    noteExists := fun _ => false
    mediaExists := fun _ => false }

/-- A fetched article page whose title `開く・｜自動詞` splits into the two
parts `開く` and the empty string: the second part of the pair is empty. -/
def emptyKanjiPage : ArticlePage :=
  { url := "https://www.edewakaru.com/archives/9.html".data
    title := "開く・｜自動詞".data
    body := []
    readingI := none
    readingT := none
    images := [] }

/-- The record `parse_article` produces for the title
`開く・開ける｜自動詞・他動詞` with a two-line example body. -/
def parsedOpenRecord : Record :=
  { id := "開く_開ける".data
    title := "開く・開ける｜自動詞・他動詞".data
    level := "beginner".data
    intransitive :=
      { kanji := "開く".data, reading := none, examples := ["ドアが開く。".data] }
    transitive :=
      { kanji := "開ける".data, reading := none, examples := ["ドアを開ける。".data] }
    practice_questions := []
    answers := []
    images := []
    source_url := "u".data
    attribution := attributionStr }

/-- The record `parse_article` produces for the title
`閉まる・閉める｜自動詞` with an empty body. -/
def parsedCloseRecord : Record :=
  { id := "閉まる_閉める".data
    title := "閉まる・閉める｜自動詞".data
    level := "beginner".data
    intransitive := { kanji := "閉まる".data, reading := none, examples := [] }
    transitive := { kanji := "閉める".data, reading := none, examples := [] }
    practice_questions := []
    answers := []
    images := []
    source_url := "u".data
    attribution := attributionStr }

theorem mem_of_mem_pyStrip {x : Char} {l : List Char} (h : x ∈ pyStrip l) :
    x ∈ l := by
  unfold pyStrip at h
  rw [List.mem_reverse] at h
  have h2 := (List.dropWhile_sublist isPySpace).subset h
  rw [List.mem_reverse] at h2
  exact (List.dropWhile_sublist isPySpace).subset h2

theorem dropWhile_eq_self_allF {p : Char → Bool} {l : List Char}
    (h : ∀ x ∈ l, p x = false) : l.dropWhile p = l := by
  cases l with
  | nil => rfl
  | cons a t =>
    rw [List.dropWhile_cons_of_neg]
    simp [h a (List.mem_cons_self a t)]

theorem pyStrip_eq_self {l : List Char}
    (h : ∀ x ∈ l, isPySpace x = false) : pyStrip l = l := by
  unfold pyStrip
  rw [dropWhile_eq_self_allF h, dropWhile_eq_self_allF, List.reverse_reverse]
  intro x hx
  exact h x (List.mem_reverse.mp hx)

theorem dropWhile_append_singleton {p : Char → Bool} {c : Char}
    (hc : p c = false) (l : List Char) :
    (l ++ [c]).dropWhile p = l.dropWhile p ++ [c] := by
  induction l with
  | nil => simp [List.dropWhile, hc]
  | cons a t ih =>
    by_cases hpa : p a
    · simpa [List.dropWhile_cons_of_pos hpa] using ih
    · simp [List.dropWhile_cons_of_neg hpa]

theorem pyStrip_cons {c : Char} (hc : isPySpace c = false) (r : List Char) :
    pyStrip (c :: r) = c :: (r.reverse.dropWhile isPySpace).reverse := by
  unfold pyStrip
  rw [List.dropWhile_cons_of_neg (by simp [hc]), List.reverse_cons,
    dropWhile_append_singleton hc, List.reverse_append]
  simp

theorem dropWhile_rev_decomp (p : Char → Bool) (l : List Char) :
    ∃ w, l = (l.reverse.dropWhile p).reverse ++ w ∧ ∀ x ∈ w, p x = true := by
  refine ⟨(l.reverse.takeWhile p).reverse, ?_, ?_⟩
  · rw [← List.reverse_append, List.takeWhile_append_dropWhile, List.reverse_reverse]
  · intro x hx
    exact List.mem_takeWhile_imp (List.mem_reverse.mp hx)

theorem pySplit_ne_nil (c : Char) (l : List Char) : pySplit c l ≠ [] := by
  induction l with
  | nil => simp [pySplit]
  | cons x xs ih =>
    by_cases h : x = c
    · simp [pySplit, h]
    · simp only [pySplit, if_neg h]
      rcases hr : pySplit c xs with _ | ⟨p, ps⟩
      · exact absurd hr ih
      · simp

theorem length_pySplit (c : Char) (l : List Char) :
    (pySplit c l).length = l.count c + 1 := by
  induction l with
  | nil => simp [pySplit]
  | cons x xs ih =>
    by_cases h : x = c
    · subst h
      simp [pySplit, List.count_cons, ih]
    · rcases hr : pySplit c xs with _ | ⟨p, ps⟩
      · exact absurd hr (pySplit_ne_nil c xs)
      · rw [hr] at ih
        simp only [List.length_cons] at ih
        have hne : (x == c) = false := by simpa using h
        have hne2 : (c == x) = false := by
          have hcx : ¬ c = x := fun he => h he.symm
          simpa using hcx
        simp [pySplit, if_neg h, hr, List.count_cons, hne, hne2]
        omega

theorem pySplit_no_sep {c : Char} {l : List Char} (h : c ∉ l) :
    pySplit c l = [l] := by
  induction l with
  | nil => rfl
  | cons x xs ih =>
    have hx : ¬ x = c := fun he => h (he ▸ List.mem_cons_self x xs)
    have hxs : c ∉ xs := fun hm => h (List.mem_cons_of_mem _ hm)
    simp only [pySplit, if_neg hx, ih hxs]

theorem pySplit_append {c : Char} {A B : List Char} (hA : c ∉ A) :
    pySplit c (A ++ c :: B) = A :: pySplit c B := by
  induction A with
  | nil => simp [pySplit]
  | cons x xs ih =>
    have hx : ¬ x = c := fun he => hA (he ▸ List.mem_cons_self x xs)
    have hxs : c ∉ xs := fun hm => hA (List.mem_cons_of_mem _ hm)
    simp only [List.cons_append, pySplit, if_neg hx, List.append_eq]
    rw [ih hxs]

theorem trySeps_eq_none_iff (t : List Char) (seps : List Char) :
    trySeps t seps = none ↔ ∀ sep ∈ seps, t.count sep ≠ 1 := by
  induction seps with
  | nil => simp [trySeps]
  | cons sep rest ih =>
    by_cases hm : sep ∈ t
    · have hcnt := length_pySplit sep t
      rcases hp : pySplit sep t with _ | ⟨a, l2⟩
      · exact absurd hp (pySplit_ne_nil sep t)
      rcases l2 with _ | ⟨b, l3⟩
      · rw [hp] at hcnt
        simp only [List.length_cons, List.length_nil] at hcnt
        have hpos : 0 < t.count sep := List.count_pos_iff.mpr hm
        omega
      rcases l3 with _ | ⟨d, l4⟩
      · have hone : t.count sep = 1 := by
          rw [hp] at hcnt
          simp only [List.length_cons, List.length_nil] at hcnt
          omega
        simp only [trySeps, if_pos hm, hp]
        constructor
        · intro h
          exact absurd h (by simp)
        · intro hall
          exact absurd hone (hall sep (List.mem_cons_self sep rest))
      · have hne1 : t.count sep ≠ 1 := by
          rw [hp] at hcnt
          simp only [List.length_cons] at hcnt
          omega
        simp only [trySeps, if_pos hm, hp, ih]
        constructor
        · intro hall s hs
          rcases List.mem_cons.mp hs with he | hr
          · exact he ▸ hne1
          · exact hall s hr
        · intro hall s hs
          exact hall s (List.mem_cons_of_mem _ hs)
    · have h0 : t.count sep = 0 := List.count_eq_zero.mpr hm
      simp only [trySeps, if_neg hm, ih]
      constructor
      · intro hall s hs
        rcases List.mem_cons.mp hs with he | hr
        · subst he
          omega
        · exact hall s hr
      · intro hall s hs
        exact hall s (List.mem_cons_of_mem _ hs)

theorem runsGo_shape (c : Char) (l : List Char) :
    ∀ acc, (∀ r, acc = some r → ∀ x ∈ r, stopRun x = false) →
      ∀ m ∈ runsGo c acc l,
        ∃ run, m = c :: run ∧ run ≠ [] ∧ ∀ x ∈ run, stopRun x = false := by
  induction l with
  | nil =>
    intro acc hacc m hm
    cases acc with
    | none => simp [runsGo] at hm
    | some run =>
      by_cases h : run = []
      · simp [runsGo, h] at hm
      · simp only [runsGo, if_neg h, List.mem_singleton] at hm
        exact ⟨run, hm, h, hacc run rfl⟩
  | cons x xs ih =>
    intro acc hacc m hm
    cases acc with
    | none =>
      simp only [runsGo] at hm
      by_cases hxc : x = c
      · rw [if_pos hxc] at hm
        exact ih (some []) (by simp) m hm
      · rw [if_neg hxc] at hm
        exact ih none (by simp) m hm
    | some run =>
      simp only [runsGo] at hm
      by_cases hs : stopRun x
      · rw [if_pos hs] at hm
        rcases List.mem_append.mp hm with hl | hr
        · by_cases h : run = []
          · simp [h] at hl
          · simp only [if_neg h, List.mem_singleton] at hl
            exact ⟨run, hl, h, hacc run rfl⟩
        · by_cases hxc : x = c
          · rw [if_pos hxc] at hr
            exact ih (some []) (by simp) m hr
          · rw [if_neg hxc] at hr
            exact ih none (by simp) m hr
      · rw [if_neg hs] at hm
        refine ih (some (run ++ [x])) ?_ m hm
        intro r hr y hy
        cases Option.some.inj hr
        rcases List.mem_append.mp hy with h1 | h2
        · exact hacc run rfl y h1
        · rw [List.mem_singleton.mp h2]
          exact Bool.not_eq_true _ ▸ (by simpa using hs)

theorem findRuns_shape {c : Char} {text m : List Char}
    (hm : m ∈ findRuns c text) :
    ∃ run, m = c :: run ∧ run ≠ [] ∧ ∀ x ∈ run, stopRun x = false :=
  runsGo_shape c text none (by simp) m hm

theorem firstRun_some {c : Char} {l run : List Char}
    (h : firstRun c l = some run) :
    run ≠ [] ∧ ∀ x ∈ run, stopRun x = false := by
  induction l with
  | nil => simp [firstRun] at h
  | cons x xs ih =>
    by_cases hxc : x = c
    · simp only [firstRun, if_pos hxc] at h
      by_cases he : xs.takeWhile (fun y => !stopRun y) = []
      · rw [if_pos he] at h
        exact ih h
      · rw [if_neg he] at h
        cases Option.some.inj h
        refine ⟨he, fun y hy => ?_⟩
        have := List.mem_takeWhile_imp hy
        simpa using this
    · simp only [firstRun, if_neg hxc] at h
      exact ih h

theorem circled_not_space : ∀ g ∈ circledNumbers, isPySpace g = false := by decide

theorem circled_not_close : ∀ g ∈ circledNumbers, g ≠ '】' := by decide

theorem fixBrackets_shape {c : Char} (run : List Char)
    (hrun : ∀ x ∈ run, stopRun x = false) :
    ∃ run2, fixBrackets (c :: run) = c :: run2 ∧
      (∀ x ∈ run2, stopRun x = false) ∧
      ('【' ∈ (c :: run2) → '】' ∈ (c :: run2)) := by
  unfold fixBrackets
  by_cases h : '【' ∈ (c :: run) ∧ '】' ∉ (c :: run)
  · rw [if_pos h]
    refine ⟨run ++ ['】'], by simp, ?_, ?_⟩
    · intro x hx
      rcases List.mem_append.mp hx with h1 | h2
      · exact hrun x h1
      · rw [List.mem_singleton.mp h2]
        decide
    · intro _
      simp
  · rw [if_neg h]
    push_neg at h
    exact ⟨run, rfl, hrun, h⟩

theorem pyStrip_cons_shape {c : Char} (hc : isPySpace c = false)
    (run2 : List Char) :
    ∃ run3, pyStrip (c :: run2) = c :: run3 ∧
      (∀ x ∈ run3, x ∈ run2) ∧
      (∀ y ∈ run2, isPySpace y = false → y ∈ run3) := by
  refine ⟨(run2.reverse.dropWhile isPySpace).reverse, pyStrip_cons hc run2, ?_, ?_⟩
  · intro x hx
    rw [List.mem_reverse] at hx
    have := (List.dropWhile_sublist isPySpace).subset hx
    exact List.mem_reverse.mp this
  · intro y hy hyws
    obtain ⟨w, hdec, hw⟩ := dropWhile_rev_decomp isPySpace run2
    rw [List.mem_reverse]
    rcases List.mem_append.mp (hdec ▸ hy) with h1 | h2
    · exact List.mem_reverse.mp h1
    · exact absurd (hw y h2) (by simp [hyws])

theorem keepQuestion_shape {c : Char} {run q : List Char}
    (hrun : ∀ x ∈ run, stopRun x = false) (hc : isPySpace c = false)
    (hcc : c ≠ '】') (hk : keepQuestion (c :: run) = some q) :
    (∃ rest, q = c :: rest ∧ ∀ x ∈ rest, stopRun x = false) ∧
      ('【' ∈ q → '】' ∈ q) := by
  obtain ⟨run2, hfix, hrun2, hbr⟩ := fixBrackets_shape run hrun
  unfold keepQuestion at hk
  rw [hfix] at hk
  by_cases hlen : (c :: run2).length > 5
  · rw [if_pos hlen] at hk
    cases Option.some.inj hk
    obtain ⟨run3, hstrip, hsub, hkeep⟩ := pyStrip_cons_shape hc run2
    rw [hstrip]
    refine ⟨⟨run3, rfl, fun x hx => hrun2 x (hsub x hx)⟩, ?_⟩
    intro hop
    have hop2 : '【' ∈ (c :: run2) := by
      rcases List.mem_cons.mp hop with he | hm
      · exact he ▸ List.mem_cons_self c run2
      · exact List.mem_cons_of_mem c (hsub _ hm)
    have hcl := hbr hop2
    rcases List.mem_cons.mp hcl with he | hm
    · exact absurd he.symm hcc
    · exact List.mem_cons_of_mem c (hkeep _ hm (by decide))
  · rw [if_neg hlen] at hk
    exact absurd hk (by simp)

theorem practiceQuestionsOf_mem {text q : List Char}
    (hq : q ∈ practiceQuestionsOf text) :
    (∃ g ∈ circledNumbers, ∃ rest, q = g :: rest ∧
        ∀ x ∈ rest, stopRun x = false) ∧
      ('【' ∈ q → '】' ∈ q) := by
  have hq2 : q ∈ practiceAll text := (List.take_sublist 10 _).subset hq
  unfold practiceAll at hq2
  obtain ⟨l, hl, hql⟩ := List.mem_flatten.mp hq2
  obtain ⟨g, hg, hfl⟩ := List.mem_map.mp hl
  rw [← hfl] at hql
  obtain ⟨m, hmr, hkeep⟩ := List.mem_filterMap.mp hql
  obtain ⟨run, hmeq, _, hrun⟩ := findRuns_shape hmr
  subst hmeq
  obtain ⟨hshape, hbr⟩ := keepQuestion_shape hrun (circled_not_space g hg)
    (circled_not_close g hg) hkeep
  obtain ⟨rest, hqeq, hrest⟩ := hshape
  exact ⟨⟨g, hg, rest, hqeq, hrest⟩, hbr⟩

theorem answersOf_mem {text a : List Char} (ha : a ∈ answersOf text) :
    ∀ x ∈ a, stopRun x = false := by
  unfold answersOf at ha
  rcases hb : findAnswerBlock text with _ | block
  · rw [hb] at ha
    simp at ha
  · rw [hb] at ha
    obtain ⟨g, _, hfm⟩ := List.mem_filterMap.mp ha
    obtain ⟨run, hfr, hstrip⟩ := Option.map_eq_some'.mp hfm
    obtain ⟨_, hrun⟩ := firstRun_some hfr
    intro x hx
    rw [← hstrip] at hx
    exact hrun x (mem_of_mem_pyStrip hx)

theorem answersOf_length_le (text : List Char) :
    (answersOf text).length ≤ 15 := by
  unfold answersOf
  rcases findAnswerBlock text with _ | block
  · simp
  · exact le_trans (List.length_filterMap_le _ _) (by decide)

theorem isIntransExample_nil (intr : List Char) :
    isIntransExample intr [] = false := by
  have h : isSubstring gaStr [] = false := by decide
  simp [isIntransExample, h]

theorem isTransExample_nil (tr : List Char) :
    isTransExample tr [] = false := by
  have h : isSubstring woStr [] = false := by decide
  simp [isTransExample, h]

theorem collect_examples_eq_filter (intr tr : List Char)
    (lines : List (List Char)) :
    collect_examples intr tr lines =
      ((lines.map pyStrip).filter (isIntransExample intr),
        (lines.map pyStrip).filter (isTransExample tr)) := by
  induction lines with
  | nil => rfl
  | cons l ls ih =>
    simp only [collect_examples, List.map_cons, List.filter_cons, ih]
    by_cases h0 : pyStrip l = []
    · rw [if_pos h0, h0]
      simp [isIntransExample_nil, isTransExample_nil]
    · rw [if_neg h0]
      have hlen := Bool.dichotomy (decide ((pyStrip l).length < exampleLenBound))
      refine Prod.ext ?_ ?_ <;> simp only
      · cases hga : isSubstring gaStr (pyStrip l) <;>
          cases hin : isSubstring intr (pyStrip l) <;>
          cases hj : isSubstring jidoushiStr (pyStrip l) <;>
          rcases hlen with hl | hl <;>
          simp [isIntransExample, hga, hin, hj, hl]
      · cases hwo : isSubstring woStr (pyStrip l) <;>
          cases htr : isSubstring tr (pyStrip l) <;>
          cases ht : isSubstring tadoushiStr (pyStrip l) <;>
          rcases hlen with hl | hl <;>
          simp [isTransExample, hwo, htr, ht, hl]

theorem takeWhile_append_stop {p : Char → Bool} {l r : List Char} {y : Char}
    (hl : ∀ x ∈ l, p x = true) (hy : p y = false) :
    (l ++ y :: r).takeWhile p = l := by
  induction l with
  | nil => simp [List.takeWhile_cons, hy]
  | cons a t ih =>
    rw [List.cons_append,
      List.takeWhile_cons_of_pos (hl a (List.mem_cons_self a t)),
      ih (fun x hx => hl x (List.mem_cons_of_mem _ hx))]

theorem titleSeps_not_space : ∀ s ∈ titleSeps, isPySpace s = false := by decide

theorem titleSeps_not_bar :
    ∀ s ∈ titleSeps, (s != '｜' && s != '|') = true := by decide

/-- C1, part of the corrected claim: `parse_article` stores exactly
`verbId` of the two parsed kanji as the record id. -/
theorem parse_article_id (url level title body : List Char)
    (rI rT : Option (List Char)) (imgs : List ImageEntry) (rec : Record)
    (h : parse_article url level title body rI rT imgs = some rec) :
    rec.id = verbId rec.intransitive.kanji rec.transitive.kanji := by
  rcases hp : parse_verb_pair_title title with _ | ⟨intr, tr⟩
  · rw [parse_article, hp] at h
    exact absurd h (by simp)
  · rw [parse_article, hp] at h
    cases Option.some.inj h
    rfl

/-- C1 counterexample: for the pair 開く/開ける the record id is
`開く_開ける`, which is not the plain concatenation `開く開ける`: the code
joins the kanji with an underscore (`f"{intransitive}_{transitive}"`)
before removing ASCII spaces. -/
theorem c1_record_id_counterexample :
    verbId "開く".data "開ける".data = "開く_開ける".data ∧
      verbId "開く".data "開ける".data ≠ "開く".data ++ "開ける".data := by
  decide

/-- C1 amended: the derived record id is the two kanji forms joined by an
underscore with all ASCII space characters removed (so for space-free
kanji it is exactly `A ++ "_" ++ B`), and the stored id of every parsed record
is exactly this function of its two kanji fields. -/
theorem c1_record_id_amended :
    (∀ A B : List Char, (∀ ch ∈ A, ch ≠ ' ') → (∀ ch ∈ B, ch ≠ ' ') →
      verbId A B = A ++ '_' :: B) ∧
    (∀ url level title body rI rT imgs rec,
      parse_article url level title body rI rT imgs = some rec →
      rec.id = verbId rec.intransitive.kanji rec.transitive.kanji) := by
  constructor
  · intro A B hA hB
    unfold verbId
    rw [List.filter_eq_self]
    intro ch hch
    rcases List.mem_append.mp hch with h1 | h2
    · simpa using hA ch h1
    · rcases List.mem_cons.mp h2 with he | h3
      · subst he
        decide
      · simpa using hB ch h3
  · exact parse_article_id

/-- C1 amended witness: the amended id law applied to the concrete pair
開く/開ける and to a concretely parsed article. -/
theorem c1_record_id_amended_witness :
    verbId "開く".data "開ける".data = "開く".data ++ '_' :: "開ける".data :=
  c1_record_id_amended.1 "開く".data "開ける".data (by decide) (by decide)

/-- C2 counterexample: the title `あ・` splits on ・ into exactly two parts
`あ` and the empty string; the code accepts the split even though the
second part is empty, so extraction does not return "not extractable". -/
theorem c2_not_extractable_counterexample :
    parse_verb_pair_title "あ・".data = some ("あ".data, []) ∧
      parse_verb_pair_title "あ・".data ≠ none := by
  decide

/-- C2 amended: title parsing fails (and then the whole article yields no
record) exactly when no separator, taken in the priority order ・, ／, /,
occurs exactly once in the cleaned title.  Non-emptiness of the two parts
is not checked, and a title containing several different separators still
parses on the first one occurring exactly once. -/
theorem c2_not_extractable_amended :
    (∀ title : List Char,
      (parse_verb_pair_title title = none ↔
        ∀ sep ∈ titleSeps, (pyStrip (beforeBar title)).count sep ≠ 1)) ∧
    (∀ url level title body rI rT imgs,
      parse_verb_pair_title title = none →
      parse_article url level title body rI rT imgs = none) := by
  constructor
  · intro title
    exact trySeps_eq_none_iff (pyStrip (beforeBar title)) titleSeps
  · intro url level title body rI rT imgs h
    rw [parse_article, h]

/-- C2 amended witness: the characterization applied to the concrete title
`あい` (no separators), together with a concretely skipped article. -/
theorem c2_not_extractable_amended_witness :
    parse_article "u".data "beginner".data "あい".data [] none none [] = none :=
  c2_not_extractable_amended.2 "u".data "beginner".data "あい".data []
    none none [] (by decide)

/-- C3: for a title `A<sep>B｜suffix` whose verb parts contain no
separator, no vertical bar and no whitespace, parsing returns exactly
(A, B): the ｜-suffix is removed and the title is split on the separator. -/
theorem c3_title_split (A B suffix : List Char) (sep : Char)
    (hsep : sep ∈ titleSeps)
    (hA : ∀ ch ∈ A, ch ≠ '・' ∧ ch ≠ '／' ∧ ch ≠ '/' ∧ ch ≠ '｜' ∧
      ch ≠ '|' ∧ isPySpace ch = false)
    (hB : ∀ ch ∈ B, ch ≠ '・' ∧ ch ≠ '／' ∧ ch ≠ '/' ∧ ch ≠ '｜' ∧
      ch ≠ '|' ∧ isPySpace ch = false) :
    parse_verb_pair_title (A ++ sep :: B ++ '｜' :: suffix) = some (A, B) := by
  have hbar : beforeBar (A ++ sep :: B ++ '｜' :: suffix) = A ++ sep :: B := by
    unfold beforeBar
    have hassoc : A ++ sep :: B ++ '｜' :: suffix =
        (A ++ sep :: B) ++ '｜' :: suffix := by
      simp
    rw [hassoc]
    refine takeWhile_append_stop ?_ (by decide)
    intro x hx
    rcases List.mem_append.mp hx with h1 | h2
    · obtain ⟨_, _, _, h4, h5, _⟩ := hA x h1
      simp [h4, h5]
    · rcases List.mem_cons.mp h2 with he | h3
      · rw [he]
        exact titleSeps_not_bar sep hsep
      · obtain ⟨_, _, _, h4, h5, _⟩ := hB x h3
        simp [h4, h5]
  have hstrip : pyStrip (A ++ sep :: B) = A ++ sep :: B := by
    refine pyStrip_eq_self ?_
    intro x hx
    rcases List.mem_append.mp hx with h1 | h2
    · exact (hA x h1).2.2.2.2.2
    · rcases List.mem_cons.mp h2 with he | h3
      · exact he ▸ titleSeps_not_space sep hsep
      · exact (hB x h3).2.2.2.2.2
  have hstripA : pyStrip A = A :=
    pyStrip_eq_self (fun x hx => (hA x hx).2.2.2.2.2)
  have hstripB : pyStrip B = B :=
    pyStrip_eq_self (fun x hx => (hB x hx).2.2.2.2.2)
  have hmem : ∀ c : Char, c ≠ sep → (∀ x ∈ A, x ≠ c) → (∀ x ∈ B, x ≠ c) →
      c ∉ A ++ sep :: B := by
    intro c hc hcA hcB hm
    rcases List.mem_append.mp hm with h1 | h2
    · exact hcA c h1 rfl
    · rcases List.mem_cons.mp h2 with he | h3
      · exact hc he
      · exact hcB c h3 rfl
  have hsplit : ∀ c : Char, c = sep → (∀ x ∈ A, x ≠ c) → (∀ x ∈ B, x ≠ c) →
      pySplit c (A ++ sep :: B) = [A, B] := by
    intro c hc hcA hcB
    subst hc
    rw [pySplit_append (fun hm => hcA c hm rfl),
      pySplit_no_sep (fun hm => hcB c hm rfl)]
  unfold parse_verb_pair_title
  rw [hbar, hstrip]
  have hin : sep ∈ A ++ sep :: B :=
    List.mem_append_right A (List.mem_cons_self sep B)
  simp only [titleSeps, List.mem_cons, List.not_mem_nil, or_false] at hsep
  rcases hsep with h1 | h2 | h3
  · subst h1
    simp only [trySeps]
    rw [if_pos hin,
      hsplit '・' rfl (fun x hx => (hA x hx).1) (fun x hx => (hB x hx).1)]
    simp [hstripA, hstripB]
  · subst h2
    have hnd : '・' ∉ A ++ '／' :: B :=
      hmem '・' (by decide) (fun x hx => (hA x hx).1) (fun x hx => (hB x hx).1)
    simp only [trySeps]
    rw [if_neg hnd, if_pos hin,
      hsplit '／' rfl (fun x hx => (hA x hx).2.1) (fun x hx => (hB x hx).2.1)]
    simp [hstripA, hstripB]
  · subst h3
    have hnd : '・' ∉ A ++ '/' :: B :=
      hmem '・' (by decide) (fun x hx => (hA x hx).1) (fun x hx => (hB x hx).1)
    have hns : '／' ∉ A ++ '/' :: B :=
      hmem '／' (by decide) (fun x hx => (hA x hx).2.1) (fun x hx => (hB x hx).2.1)
    simp only [trySeps]
    rw [if_neg hnd, if_neg hns, if_pos hin,
      hsplit '/' rfl (fun x hx => (hA x hx).2.2.1) (fun x hx => (hB x hx).2.2.1)]
    simp [hstripA, hstripB]

/-- C3 witness: the concrete title `開く・開ける｜自動詞・他動詞` parses
to the pair (開く, 開ける). -/
theorem c3_title_split_witness :
    parse_verb_pair_title
      ("開く".data ++ '・' :: "開ける".data ++ '｜' :: "自動詞・他動詞".data) =
      some ("開く".data, "開ける".data) :=
  c3_title_split "開く".data "開ける".data "自動詞・他動詞".data '・'
    (by decide) (by decide) (by decide)

/-- C4: a stripped body line is collected as an intransitive example
exactly when it contains が and the intransitive kanji and either the
自動詞 marker or has length below the threshold (symmetrically for the
transitive side with を and 他動詞), and each parsed record stores the
first 3 such lines per side, earliest-first. -/
theorem c4_example_lines :
    (∀ intr tr : List Char, ∀ lines : List (List Char),
      collect_examples intr tr lines =
        ((lines.map pyStrip).filter (isIntransExample intr),
          (lines.map pyStrip).filter (isTransExample tr))) ∧
    (∀ url level title body rI rT imgs rec,
      parse_article url level title body rI rT imgs = some rec →
      rec.intransitive.examples =
        ((((pySplit '\n' body).map pyStrip).filter
          (isIntransExample rec.intransitive.kanji)).take 3) ∧
      rec.transitive.examples =
        ((((pySplit '\n' body).map pyStrip).filter
          (isTransExample rec.transitive.kanji)).take 3)) := by
  refine ⟨collect_examples_eq_filter, ?_⟩
  intro url level title body rI rT imgs rec h
  rcases hp : parse_verb_pair_title title with _ | ⟨intr, tr⟩
  · rw [parse_article, hp] at h
    exact absurd h (by simp)
  · rw [parse_article, hp] at h
    cases Option.some.inj h
    constructor
    · show ((collect_examples intr tr (pySplit '\n' body)).1.take 3) = _
      rw [collect_examples_eq_filter]
    · show ((collect_examples intr tr (pySplit '\n' body)).2.take 3) = _
      rw [collect_examples_eq_filter]

/-- C4 witness: the record-level characterization applied to the concrete
record parsed for 開く/開ける from a two-line body. -/
theorem c4_example_lines_witness :
    parsedOpenRecord.intransitive.examples =
        ((((pySplit '\n' "ドアが開く。\nドアを開ける。".data).map pyStrip).filter
          (isIntransExample parsedOpenRecord.intransitive.kanji)).take 3) ∧
      parsedOpenRecord.transitive.examples =
        ((((pySplit '\n' "ドアが開く。\nドアを開ける。".data).map pyStrip).filter
          (isTransExample parsedOpenRecord.transitive.kanji)).take 3) :=
  c4_example_lines.2 "u".data "beginner".data
    "開く・開ける｜自動詞・他動詞".data "ドアが開く。\nドアを開ける。".data
    none none [] parsedOpenRecord (by decide)

/-- C5 counterexample: in `①あいうえおか⑪きく` the run started by ① is
not cut at ⑪ (the regex class only excludes ①…⑩ and newline), so the
extracted item is `①あいうえおか⑪きく` and not `①あいうえおか` as the
any-glyph boundary of the claim would require. -/
theorem c5_practice_questions_counterexample :
    practiceQuestionsOf "①あいうえおか⑪きく".data =
        ["①あいうえおか⑪きく".data] ∧
      practiceQuestionsOf "①あいうえおか⑪きく".data ≠
        ["①あいうえおか".data] := by
  decide

/-- C5 amended: at most 10 practice questions are kept, in glyph order;
each kept item starts with a circled glyph and its remaining characters
are free of newlines and of the glyphs ①…⑩ — but may contain ⑪…⑮,
which do not terminate a run (`stopRun` excludes only `\n` and ①…⑩);
an item containing 【 always contains 】 (bracket repair); items of
length at most 5 are discarded. -/
theorem c5_practice_questions_amended :
    ∀ text : List Char,
      (practiceQuestionsOf text).length ≤ 10 ∧
      ∀ q ∈ practiceQuestionsOf text,
        (∃ g ∈ circledNumbers, ∃ rest, q = g :: rest ∧
          ∀ x ∈ rest, stopRun x = false) ∧
        ('【' ∈ q → '】' ∈ q) := by
  intro text
  exact ⟨List.length_take_le 10 _, fun q hq => practiceQuestionsOf_mem hq⟩

/-- C5 amended witness: the amended properties at the concrete text
`①あいうえおか` and its single extracted item. -/
theorem c5_practice_questions_amended_witness :
    (practiceQuestionsOf "①あいうえおか".data).length ≤ 10 ∧
      ((∃ g ∈ circledNumbers, ∃ rest, "①あいうえおか".data = g :: rest ∧
          ∀ x ∈ rest, stopRun x = false) ∧
        ('【' ∈ "①あいうえおか".data → '】' ∈ "①あいうえおか".data)) :=
  ⟨(c5_practice_questions_amended "①あいうえおか".data).1,
    (c5_practice_questions_amended "①あいうえおか".data).2
      "①あいうえおか".data (by decide)⟩

/-- C6 counterexample: inside the answer block of `【答え】①まる⑪ばつ`
the group after ① is not cut at ⑪ (the class excludes only ①…⑩ and
newline), so the answers are `まる⑪ばつ` and `ばつ`, not `まる` and
`ばつ` as the any-glyph boundary of the claim would require. -/
theorem c6_answers_counterexample :
    answersOf "【答え】①まる⑪ばつ".data = ["まる⑪ばつ".data, "ばつ".data] ∧
      answersOf "【答え】①まる⑪ばつ".data ≠ ["まる".data, "ばつ".data] := by
  decide

/-- C6 amended: the concrete example `【答え】①まる②ばつ【次】` yields
exactly まる and ばつ, stopping before 【次】; in general each extracted
answer is free of newlines and of the glyphs ①…⑩ (but ⑪…⑮ do not
terminate a group: `stopRun` excludes only `\n` and ①…⑩), one answer is
taken per glyph in glyph order, and at most 15 answers are produced. -/
theorem c6_answers_amended :
    answersOf "【答え】①まる②ばつ【次】".data = ["まる".data, "ばつ".data] ∧
      (∀ text a, a ∈ answersOf text → ∀ x ∈ a, stopRun x = false) ∧
      (∀ text, (answersOf text).length ≤ 15) := by
  refine ⟨by decide, ?_, answersOf_length_le⟩
  intro text a ha x hx
  exact answersOf_mem ha x hx

/-- C6 amended witness: the membership property applied to the concrete
answer まる of the concrete block. -/
theorem c6_answers_amended_witness :
    stopRun 'ま' = false :=
  c6_answers_amended.2.1 "【答え】①まる②ばつ【次】".data "まる".data
    (by decide) 'ま' (by decide)

/-- C7 counterexample: the article titled `開く・｜自動詞` parses into a
record whose transitive kanji is the empty string, and `scrape_level`
persists that record: emptiness of the kanji fields is never checked. -/
theorem c7_nonempty_kanji_counterexample :
    (scrape_level "beginner".data [some emptyKanjiPage]).map
        (fun r => r.transitive.kanji) = [[]] := by
  decide

/-- C7 amended: extraction returns either `none` or a fully-built record
whose kanji fields are exactly the two stripped parts of the title split
and whose id is derived from them — but the parts are not checked for
non-emptiness, so a record with an empty kanji field can be produced and
persisted. -/
theorem c7_nonempty_kanji_amended :
    ∀ url level title body rI rT imgs rec,
      parse_article url level title body rI rT imgs = some rec →
      ∃ A B, parse_verb_pair_title title = some (A, B) ∧
        rec.intransitive.kanji = A ∧ rec.transitive.kanji = B ∧
        rec.id = verbId A B := by
  intro url level title body rI rT imgs rec h
  rcases hp : parse_verb_pair_title title with _ | ⟨intr, tr⟩
  · rw [parse_article, hp] at h
    exact absurd h (by simp)
  · rw [parse_article, hp] at h
    cases Option.some.inj h
    exact ⟨intr, tr, rfl, rfl, rfl, rfl⟩

/-- C7 amended witness: the structure of the concretely parsed record of
the title `閉まる・閉める｜自動詞`. -/
theorem c7_nonempty_kanji_amended_witness :
    ∃ A B, parse_verb_pair_title "閉まる・閉める｜自動詞".data = some (A, B) ∧
      parsedCloseRecord.intransitive.kanji = A ∧
      parsedCloseRecord.transitive.kanji = B ∧
      parsedCloseRecord.id = verbId A B :=
  c7_nonempty_kanji_amended "u".data "beginner".data
    "閉まる・閉める｜自動詞".data [] none none [] parsedCloseRecord (by decide)

/-- C8: the image filename is
`{record_id}_{first 8 hex chars of MD5(url)}{extension}` with the
extension taken from the suffix of the URL path or defaulting to `.jpg`, and
when a file with that name already exists, `download_image` returns it
with the store untouched and with a result independent of the network
oracle (no fetch is performed). -/
theorem c8_image_idempotent :
    ∀ (md5hex : List Char → List Char)
      (fetch fetch2 : List Char → Option (List Nat))
      (st : ImageStore) (url vid : List Char),
      imageFilename md5hex url vid =
        vid ++ '_' :: ((md5hex url).take 8 ++
          (if pathSuffix (urlPath url) = [] then ".jpg".data
            else pathSuffix (urlPath url))) ∧
      (imageFilename md5hex url vid ∈ st.names →
        download_image md5hex fetch st url vid =
          (some (imageFilename md5hex url vid), st) ∧
        download_image md5hex fetch st url vid =
          download_image md5hex fetch2 st url vid) := by
  intro md5hex fetch fetch2 st url vid
  refine ⟨rfl, fun h => ⟨?_, ?_⟩⟩
  · simp only [download_image]
    rw [if_pos h]
  · simp only [download_image, if_pos h]

/-- C8 witness: a concrete store already holding the computed filename for
a concrete URL: the existing name is returned, the store is untouched, and
the two different network oracles are indistinguishable. -/
theorem c8_image_idempotent_witness :
    download_image (fun _ => "0123456789abcdef0123456789abcdef".data)
        (fun _ => none)
        ⟨[("a_b_01234567.jpg".data, [7])]⟩
        "https://resize.blogsys.jp/x/img.jpg".data "a_b".data =
      (some "a_b_01234567.jpg".data, ⟨[("a_b_01234567.jpg".data, [7])]⟩) :=
  ((c8_image_idempotent (fun _ => "0123456789abcdef0123456789abcdef".data)
    (fun _ => none) (fun _ => some [9])
    ⟨[("a_b_01234567.jpg".data, [7])]⟩
    "https://resize.blogsys.jp/x/img.jpg".data "a_b".data).2 (by decide)).1

/-- C9 counterexample: with a store that answers the three setup calls and
then becomes unreachable, a two-record sync run crashes on the first
first `findNotes` call with nothing processed — the second record is
not synced, so a mid-run store failure is fatal, not skipped. -/
theorem c9_connectivity_counterexample :
    sync_all_verb_pairs midRunFailEnv [sampleRecord, sampleRecord2] =
        SyncOutcome.crashed 0 0 ∧
      sync_all_verb_pairs midRunFailEnv [sampleRecord, sampleRecord2] ≠
        SyncOutcome.completed 1 0 := by
  decide

/-- C9 amended: a failed page fetch skips that article and the batch
continues; a failed image fetch leaves the image store untouched (the
article continues without that image); the external store being
unreachable at the startup version check aborts the sync run after a
diagnostic; but an unreachable store at any later per-record call also
stops the whole run (uncaught exception) rather than skipping the
record. -/
theorem c9_connectivity_amended :
    (∀ (level : List Char) (xs ys : List (Option ArticlePage)),
      scrape_level level (xs ++ none :: ys) = scrape_level level (xs ++ ys)) ∧
    (∀ (md5hex : List Char → List Char)
      (fetch : List Char → Option (List Nat)) (st : ImageStore)
      (url vid : List Char), fetch url = none →
      (download_image md5hex fetch st url vid).2 = st) ∧
    (∀ (env : AnkiEnv) (recs : List Record), env.net 0 = false →
      sync_all_verb_pairs env recs = SyncOutcome.abortedAtStartup) ∧
    (∀ (env : AnkiEnv) (n added updated : Nat) (r : Record)
      (rs : List Record), add_or_update_note env n r = none →
      syncLoop env n added updated (r :: rs) =
        SyncOutcome.crashed added updated) := by
  refine ⟨?_, ?_, ?_, ?_⟩
  · intro level xs ys
    unfold scrape_level
    rw [List.filterMap_append, List.filterMap_append]
    simp
  · intro md5hex fetch st url vid h
    unfold download_image
    by_cases he : imageFilename md5hex url vid ∈ st.names
    · rw [if_pos he]
    · rw [if_neg he, h]
  · intro env recs h
    unfold sync_all_verb_pairs ankiStep
    rw [h]
    simp
  · intro env n added updated r rs h
    unfold syncLoop
    rw [h]

/-- C9 amended witness: the four amended clauses at concrete inputs: a
one-article batch whose only fetch failed, an image fetch failure on an
empty store, a startup-dead store, and a mid-run-dead store. -/
theorem c9_connectivity_amended_witness :
    scrape_level "beginner".data ([] ++ none :: []) =
        scrape_level "beginner".data ([] ++ []) ∧
      (download_image (fun _ => "0123456789abcdef0123456789abcdef".data)
        (fun _ => none) ⟨[]⟩ "https://resize.blogsys.jp/x.jpg".data
        "a_b".data).2 = (⟨[]⟩ : ImageStore) ∧
      sync_all_verb_pairs { midRunFailEnv with net := fun _ => false }
        [sampleRecord] = SyncOutcome.abortedAtStartup ∧
      syncLoop midRunFailEnv 3 0 0 [sampleRecord] = SyncOutcome.crashed 0 0 :=
  ⟨c9_connectivity_amended.1 "beginner".data [] [],
    c9_connectivity_amended.2.1 _ (fun _ => none) ⟨[]⟩
      "https://resize.blogsys.jp/x.jpg".data "a_b".data rfl,
    c9_connectivity_amended.2.2.1 _ [sampleRecord] rfl,
    c9_connectivity_amended.2.2.2 midRunFailEnv 3 0 0 sampleRecord []
      (by decide)⟩

/-- C10: the PracticeQuestions field of the synced note holds at most 5
questions — those containing ［ or 【 are preferred, otherwise the first
5 — and the Answers field holds at most the first 5 answers, even though
up to 10 questions are persisted in the record. -/
theorem c10_note_fields :
    (∀ qs : List (List Char),
      ((∃ q ∈ qs, hasChoiceBracket q = true) →
        format_practice_questions qs =
          joinBr ((qs.filter hasChoiceBracket).take 5)) ∧
      ((∀ q ∈ qs, hasChoiceBracket q = false) →
        format_practice_questions qs = joinBr (qs.take 5)) ∧
      ((qs.filter hasChoiceBracket).take 5).length ≤ 5 ∧
      (qs.take 5).length ≤ 5) ∧
    (∀ as : List (List Char),
      format_answers as = joinBr (as.take 5) ∧ (as.take 5).length ≤ 5) ∧
    (∀ text, (practiceQuestionsOf text).length ≤ 10) := by
  refine ⟨?_, ?_, fun text => List.length_take_le 10 _⟩
  · intro qs
    refine ⟨?_, ?_, List.length_take_le 5 _, List.length_take_le 5 _⟩
    · intro ⟨q, hq, hb⟩
      have hne : qs.filter hasChoiceBracket ≠ [] := by
        intro h0
        have := List.filter_eq_nil_iff.mp h0 q hq
        simp [hb] at this
      simp only [format_practice_questions]
      rw [if_neg hne]
    · intro hall
      have h0 : qs.filter hasChoiceBracket = [] :=
        List.filter_eq_nil_iff.mpr (fun q hq => by simp [hall q hq])
      simp only [format_practice_questions]
      rw [if_pos h0, List.take_take]
      simp
  · intro as
    exact ⟨rfl, List.length_take_le 5 _⟩

/-- C10 witness: the field characterization at a concrete question list
with one bracketed question, and at a concrete six-element answer list. -/
theorem c10_note_fields_witness :
    format_practice_questions ["あ【x】".data, "い".data] =
        joinBr (((["あ【x】".data, "い".data]).filter hasChoiceBracket).take 5) ∧
      format_answers ["a".data, "b".data] = joinBr ((["a".data, "b".data]).take 5) :=
  ⟨(c10_note_fields.1 ["あ【x】".data, "い".data]).1
      ⟨"あ【x】".data, by decide, by decide⟩,
    (c10_note_fields.2.1 ["a".data, "b".data]).1⟩

end VerbPairs
